import Mathlib

/-!
Shallow embedding of the PokerLens hand-history core
(`src/parser.py`, `src/file_scanner.py`): text utilities mirroring the
Python string operations, the three line patterns, `determine_positions`,
`parse_hand`, `split_hands` and `get_hand_id`, followed by theorems
checking the specified properties.  Strings are modeled as `List Char`
over the ASCII fragment (the `\w` class is modeled as ASCII alphanumeric
plus underscore, `\d` as ASCII digits), Python `ValueError` propagation
as `Except Unit`.
-/

namespace PokerLens

/-- Decidable equality for `Except`, to let concrete runs of the embedded
functions be checked by `decide`. -/
instance {ε α : Type} [DecidableEq ε] [DecidableEq α] : DecidableEq (Except ε α) := fun x y =>
  match x, y with
  | .error a, .error b =>
      if h : a = b then .isTrue (by rw [h]) else .isFalse (by simp [h])
  | .ok a, .ok b =>
      if h : a = b then .isTrue (by rw [h]) else .isFalse (by simp [h])
  | .error _, .ok _ => .isFalse (by simp)
  | .ok _, .error _ => .isFalse (by simp)

/-! ## Python string primitives -/

/-- Whitespace recognized by `str.strip` and line handling (ASCII fragment). -/
def pyIsSpace (c : Char) : Bool :=
  c == ' ' || c == '\t' || c == '\n' || c == '\r' || c == '\x0b' || c == '\x0c'

/-- Leading part of `str.strip`. -/
def stripLeading (s : List Char) : List Char :=
  s.dropWhile pyIsSpace

/-- Trailing part of `str.strip`. -/
def stripTrailing (s : List Char) : List Char :=
  (s.reverse.dropWhile pyIsSpace).reverse

/-- Python `str.strip()`. -/
def pyStrip (s : List Char) : List Char :=
  stripTrailing (stripLeading s)

/-- Helper for `splitlines`: accumulates the current line (reversed). -/
def splitlinesAux : List Char → List Char → List (List Char)
  | [], cur => if cur.isEmpty then [] else [cur.reverse]
  | '\r' :: '\n' :: rest, cur => cur.reverse :: splitlinesAux rest []
  | '\r' :: rest, cur => cur.reverse :: splitlinesAux rest []
  | '\n' :: rest, cur => cur.reverse :: splitlinesAux rest []
  | c :: rest, cur => splitlinesAux rest (c :: cur)

/-- Python `str.splitlines()` (newline, carriage return, CRLF). -/
def splitlines (s : List Char) : List (List Char) :=
  splitlinesAux s []

/-- The line list `parse_hand` iterates over: `hand_text.strip().splitlines()`. -/
def pyLines (s : List Char) : List (List Char) :=
  splitlines (pyStrip s)

/-- Boolean list-prefix test (used for Python `startswith` and literal
pattern pieces). -/
def isPref : List Char → List Char → Bool
  | [], _ => true
  | _ :: _, [] => false
  | a :: as, b :: bs => a == b && isPref as bs

/-- Consume a literal pattern piece from the front of `s`. -/
def dropLit (lit s : List Char) : Option (List Char) :=
  if isPref lit s then some (s.drop lit.length) else none

/-- Greedy nonempty character-class run (`\d+`, `\w+`, `[\d.]+`): the maximal
run of characters satisfying `p`, which must be nonempty, plus the rest of the
line.  The classes are always followed by a literal outside the class, so the
greedy match never backtracks. -/
def takeRun (p : Char → Bool) (s : List Char) : Option (List Char × List Char) :=
  if (s.takeWhile p).isEmpty then none else some (s.takeWhile p, s.dropWhile p)

/-- ASCII decimal digit (`\d`, ASCII fragment). -/
def isDigitC (c : Char) : Bool :=
  '0' ≤ c && c ≤ '9'

/-- ASCII word character (`\w`, ASCII fragment). -/
def isWordC (c : Char) : Bool :=
  c.isAlphanum || c == '_'

/-- Python `int` on a digit string. -/
def digitsToNat (ds : List Char) : Nat :=
  ds.foldl (fun n c => 10 * n + (c.toNat - 48)) 0

/-! ## The line patterns of `parser.py` -/

/-- Literal piece of `SEAT_LINE`. -/
def litSeat : List Char := ("Seat ").toList

/-- Literal piece of `SEAT_LINE` and `ACTION_LINE`. -/
def litColonSpace : List Char := (": ").toList

/-- Literal piece of `SEAT_LINE`. -/
def litSpaceParen : List Char := (" (").toList

/-- Literal piece of `SEAT_LINE`. -/
def litInChips : List Char := (" in chips)").toList

/-- Result of a `SEAT_LINE` match: seat number, player name, raw chips text. -/
structure SeatMatch where
  seatNum : Nat
  name : List Char
  chips : List Char
deriving DecidableEq

/-- `SEAT_LINE.match(line)` for
`^Seat (\d+): (\w+) \(\$?([\d.]+) in chips\)` (anchored at the line start,
trailing text allowed). -/
def seatMatch (line : List Char) : Option SeatMatch := do
  let r1 ← dropLit litSeat line
  let (ds, r2) ← takeRun isDigitC r1
  let r3 ← dropLit litColonSpace r2
  let (nm, r4) ← takeRun isWordC r3
  let r5 ← dropLit litSpaceParen r4
  let r6 := match r5 with
    | '$' :: t => t
    | _ => r5
  let (ch, r7) ← takeRun (fun c => isDigitC c || c == '.') r6
  let _ ← dropLit litInChips r7
  some ⟨digitsToNat ds, nm, ch⟩

/-- Literal piece of `BUTTON_LINE`. -/
def litTableQuote : List Char := ("Table '").toList

/-- Literal piece of `BUTTON_LINE`: closing quote and space after `.*`. -/
def litQuoteSpace : List Char := ("' ").toList

/-- Literal piece of `BUTTON_LINE`. -/
def litMaxSeat : List Char := ("-max Seat #").toList

/-- Literal piece of `BUTTON_LINE`. -/
def litIsTheButton : List Char := (" is the button").toList

/-- The part of `BUTTON_LINE` after the greedy `.*`:
`' (\d+)-max Seat #(\d+) is the button`; yields the second group (the
button seat). -/
def butTail (s : List Char) : Option Nat := do
  let r1 ← dropLit litQuoteSpace s
  let (_, r2) ← takeRun isDigitC r1
  let r3 ← dropLit litMaxSeat r2
  let (ds2, r4) ← takeRun isDigitC r3
  let _ ← dropLit litIsTheButton r4
  some (digitsToNat ds2)

/-- `BUTTON_LINE.match(line)` for
`Table '.*' (\d+)-max Seat #(\d+) is the button` (`re.match` anchors at the
line start; `.*` is greedy, so the longest consumed prefix wins). -/
def butMatch (line : List Char) : Option Nat := do
  let r ← dropLit litTableQuote line
  ((List.range (r.length + 1)).reverse).findSome? fun i => butTail (r.drop i)

/-- The recognized preflop actions. -/
inductive Act where
  | folds
  | calls
  | checks
  | bets
  | raises
deriving DecidableEq

/-- Alternation literals of `ACTION_LINE`, tried left to right. -/
def actAlternatives : List (List Char × Act) :=
  [(("folds").toList, Act.folds), (("calls").toList, Act.calls),
   (("checks").toList, Act.checks), (("bets").toList, Act.bets),
   (("raises").toList, Act.raises)]

/-- `ACTION_LINE.match(line)` for `^(\w+): (folds|calls|checks|bets|raises)(.*)`;
yields the player name and the action (the trailing group always matches). -/
def actionMatch (line : List Char) : Option (List Char × Act) := do
  let (nm, r1) ← takeRun isWordC line
  let r2 ← dropLit litColonSpace r1
  let (_, a) ← actAlternatives.find? fun la => isPref la.1 r2
  some (nm, a)

/-! ## `determine_positions` -/

/-- Per-seat record held in the `seats` dict: player name and the raw chips
text (the Python code stores `float(chips)`; the numeric value is never
used by the statistics, so the embedding keeps the matched text and checks
convertibility separately, see `chipsOk`). -/
structure SeatInfo where
  name : List Char
  chips : List Char
deriving DecidableEq

/-- The `seats` dict: seat number to seat record, in insertion order. -/
abbrev Seats := List (Nat × SeatInfo)

/-- Python dict assignment `m[k] = v`: overwrite in place if the key is
present, else append. -/
def dictSet {α β : Type} [BEq α] : List (α × β) → α → β → List (α × β)
  | [], k, v => [(k, v)]
  | (k₁, v₁) :: t, k, v =>
      if k₁ == k then (k₁, v) :: t else (k₁, v₁) :: dictSet t k v

/-- `seats[seat_num]["name"]` (total: empty name when the seat is absent,
which never happens on the seats actually passed). -/
def occupant (seats : Seats) (k : Nat) : List Char :=
  match seats.lookup k with
  | some si => si.name
  | none => []

/-- Curated label lists of `POSITION_MAP_BY_SIZE` plus the code's fallback
`["BTN", "SB", "BB"] + [f"EP{i}" for i in range(n_players - 3)]`. -/
def positionLabels (n : Nat) : List (List Char) :=
  if n = 2 then [("BTN").toList, ("BB").toList]
  else if n = 3 then [("BTN").toList, ("SB").toList, ("BB").toList]
  else if n = 4 then [("BTN").toList, ("SB").toList, ("BB").toList, ("CO").toList]
  else if n = 5 then
    [("BTN").toList, ("SB").toList, ("BB").toList, ("UTG").toList, ("CO").toList]
  else if n = 6 then
    [("BTN").toList, ("SB").toList, ("BB").toList, ("UTG").toList,
     ("HJ").toList, ("CO").toList]
  else [("BTN").toList, ("SB").toList, ("BB").toList] ++
    (List.range (n - 3)).map fun i => ("EP").toList ++ (toString i).toList

/-- `labels[i] if i < len(labels) else f"EP{i}"`. -/
def posLabelAt (labels : List (List Char)) (i : Nat) : List Char :=
  labels.getD i (("EP").toList ++ (toString i).toList)

/-- `sorted(seats.keys())`. -/
def sortedSeatKeys (seats : Seats) : List Nat :=
  List.insertionSort (fun a b => a ≤ b) (seats.map Prod.fst)

/-- `seat_order[button_index:] + seat_order[:button_index]`. -/
def rotatedSeatKeys (seats : Seats) (button : Nat) : List Nat :=
  let so := sortedSeatKeys seats
  let bi := so.indexOf button
  so.drop bi ++ so.take bi

/-- The loop `for i, seat_num in enumerate(rotated): pos_map[player] = pos`,
walked with the running index `i`. -/
def buildPosMap (seats : Seats) (labels : List (List Char)) :
    List Nat → Nat → List (List Char × List Char) → List (List Char × List Char)
  | [], _, pm => pm
  | k :: rest, i, pm =>
      buildPosMap seats labels rest (i + 1)
        (dictSet pm (occupant seats k) (posLabelAt labels i))

/-- `determine_positions(seats, button_seat)` from `parser.py`.  The in-place
write of the position back into the seats dict is dropped: the design
contract is value returning and `parse_hand` only reads the returned map. -/
def determine_positions (seats : Seats) (button : Nat) : List (List Char × List Char) :=
  if button ∈ sortedSeatKeys seats then
    buildPosMap seats (positionLabels seats.length) (rotatedSeatKeys seats button) 0 []
  else []

/-! ## `parse_hand` -/

/-- Per-player statistics record. -/
structure PStat where
  hands_played : Nat
  vpip : Nat
  pfr : Nat
  three_bet : Nat
  position : List Char
deriving DecidableEq

/-- The `defaultdict` default: all counters zero, empty position. -/
def defaultPStat : PStat :=
  ⟨0, 0, 0, 0, []⟩

/-- The stats mapping, in insertion order. -/
abbrev StatsMap := List (List Char × PStat)

/-- Read `stats[player]` through the `defaultdict` default. -/
def getSt (m : StatsMap) (p : List Char) : PStat :=
  (m.lookup p).getD defaultPStat

/-- `defaultdict` field update `stats[player][...] = ...`: vivifies the entry
if missing and stores the updated record. -/
def bumpSt (m : StatsMap) (p : List Char) (f : PStat → PStat) : StatsMap :=
  dictSet m p (f (getSt m p))

/-- Whether Python `float` accepts the chips text matched by `[\d.]+`:
at most one dot and at least one digit (`float(".")`, `float("1.2.3")`
raise `ValueError`). -/
def chipsOk (c : List Char) : Bool :=
  (c.filter fun x => x == '.').length ≤ 1 && c.any isDigitC

/-- First pass of `parse_hand`: collect the seats dict and the button seat.
A seat line whose chips text `float` rejects raises `ValueError`
(modeled as `Except.error`). -/
def pass1 : List (List Char) → Seats → Option Nat → Except Unit (Seats × Option Nat)
  | [], seats, btn => .ok (seats, btn)
  | line :: rest, seats, btn =>
      match seatMatch line with
      | some sm =>
          if chipsOk sm.chips then
            pass1 rest (dictSet seats sm.seatNum ⟨sm.name, sm.chips⟩) btn
          else .error ()
      | none =>
          match butMatch line with
          | some b => pass1 rest seats (some b)
          | none => pass1 rest seats btn

/-- Literal street marker starting the preflop segment. -/
def litHoleCards : List Char := ("*** HOLE CARDS ***").toList

/-- Literal street marker ending the preflop segment. -/
def litFlop : List Char := ("*** FLOP ***").toList

/-- One action-line update of the stats (lines 127-135 of `parser.py`):
a call or raise bumps `vpip`; a raise bumps `pfr` when it is still zero,
else `three_bet`. -/
def applyAct (m : StatsMap) (p : List Char) (a : Act) : StatsMap :=
  let m1 := if a = Act.calls ∨ a = Act.raises then
      bumpSt m p (fun st => { st with vpip := st.vpip + 1 }) else m
  if a = Act.raises then
    if (getSt m1 p).pfr = 0 then
      bumpSt m1 p (fun st => { st with pfr := st.pfr + 1 })
    else
      bumpSt m1 p (fun st => { st with three_bet := st.three_bet + 1 })
  else m1

/-- Second pass of `parse_hand`: the preflop action walk, with the
`*** HOLE CARDS ***` / `*** FLOP ***` markers toggling and breaking. -/
def pass2 : List (List Char) → Bool → StatsMap → StatsMap
  | [], _, m => m
  | line :: rest, preflop, m =>
      if isPref litHoleCards line then pass2 rest true m
      else if isPref litFlop line then m
      else if preflop then
        match actionMatch line with
        | some pa => pass2 rest preflop (applyAct m pa.1 pa.2)
        | none => pass2 rest preflop m
      else pass2 rest preflop m

/-- `positions.get(name, "")` on the positions dict. -/
def posGet (pos : List (List Char × List Char)) (nm : List Char) : List Char :=
  (pos.lookup nm).getD []

/-- Stats initialization loop: every seated player gets `hands_played = 1`
and its position label, before the action walk. -/
def initStats : Seats → List (List Char × List Char) → StatsMap → StatsMap
  | [], _, m => m
  | (_, si) :: rest, pos, m =>
      initStats rest pos
        (dictSet m si.name
          { getSt m si.name with hands_played := 1, position := posGet pos si.name })

/-- `parse_hand(hand_text)` from `parser.py`.  `.error ()` models an escaping
`ValueError`, `.ok none` the `return None` failure sentinel. -/
def parse_hand (hand_text : List Char) : Except Unit (Option StatsMap) :=
  match pass1 (pyLines hand_text) [] none with
  | .error e => .error e
  | .ok (seats, obtn) =>
      if seats.isEmpty then .ok none
      else
        match obtn with
        | none => .ok none
        | some button_seat =>
            if (seats.lookup button_seat).isNone then .ok none
            else if (determine_positions seats button_seat).isEmpty then .ok none
            else .ok (some (pass2 (pyLines hand_text) false
                (initStats seats (determine_positions seats button_seat) [])))

/-! ## `file_scanner.py`: `split_hands` and `get_hand_id` -/

/-- The record header literal of `HAND_SPLIT_REGEX` / `HAND_ID_REGEX`. -/
def litHandHdr : List Char := ("PokerStars Hand #").toList

/-- Digits of a full header match `PokerStars Hand #(\d+):` anchored at the
front of `s`. -/
def headerIdAt (s : List Char) : Option (List Char) :=
  match dropLit litHandHdr s with
  | none => none
  | some r =>
      match takeRun isDigitC r with
      | none => none
      | some (ds, r2) => if r2.head? == some ':' then some ds else none

/-- Whether the lookahead `(?=PokerStars Hand #\d+:)` fires at the front
of `s`. -/
def isHeaderAt (s : List Char) : Bool :=
  (headerIdAt s).isSome

/-- `re.split` on the zero-width lookahead: a chunk ends wherever the header
pattern matches (the header is kept with the following chunk; a match at
position 0 yields a leading empty chunk). -/
def pySplitAux : List Char → List Char → List (List Char)
  | [], cur => [cur.reverse]
  | c :: rest, cur =>
      if isHeaderAt (c :: rest) then cur.reverse :: pySplitAux rest [c]
      else pySplitAux rest (c :: cur)

/-- `split_hands(file_content)` from `file_scanner.py`: split on the header
lookahead, strip each chunk, keep those starting with the bare literal
`PokerStars Hand #`. -/
def split_hands (file_content : List Char) : List (List Char) :=
  (pySplitAux file_content []).filterMap fun chunk =>
    if isPref litHandHdr (pyStrip chunk) then some (pyStrip chunk) else none

/-- `get_hand_id(raw_hand_text)`: `re.search` for
`PokerStars Hand #(\d+):` — the leftmost full match wins. -/
def get_hand_id : List Char → Option (List Char)
  | [] => none
  | c :: rest =>
      match headerIdAt (c :: rest) with
      | some ds => some ds
      | none => get_hand_id rest

/-! ## Observers used in the theorem statements -/

/-- The preflop action sequence the pass-2 walk classifies, as a list of
(player, action) pairs: same marker handling as `pass2`. -/
def actSeq : List (List Char) → Bool → List (List Char × Act)
  | [], _ => []
  | line :: rest, preflop =>
      if isPref litHoleCards line then actSeq rest true
      else if isPref litFlop line then []
      else if preflop then
        match actionMatch line with
        | some pa => pa :: actSeq rest preflop
        | none => actSeq rest preflop
      else actSeq rest preflop

/-- The preflop action sequence of one raw record. -/
def preflopActions (s : List Char) : List (List Char × Act) :=
  actSeq (pyLines s) false

/-- Number of raise actions by player `p` in an action list. -/
def raisesIn (p : List Char) (acts : List (List Char × Act)) : Nat :=
  (acts.filter fun pa => pa.1 == p && decide (pa.2 = Act.raises)).length

/-- Number of VPIP-qualifying actions (calls or raises) by player `p`. -/
def qualIn (p : List Char) (acts : List (List Char × Act)) : Nat :=
  (acts.filter fun pa =>
    pa.1 == p && (decide (pa.2 = Act.calls) || decide (pa.2 = Act.raises))).length

/-- Number of preflop raises by `p` in record `s`. -/
def raiseCount (p : List Char) (s : List Char) : Nat :=
  raisesIn p (preflopActions s)

/-- Number of qualifying (call/raise) preflop actions by `p` in record `s`. -/
def vpipActCount (p : List Char) (s : List Char) : Nat :=
  qualIn p (preflopActions s)

/-- Fold of `applyAct` over an action list (the whole of pass 2). -/
def applyActs (m : StatsMap) (acts : List (List Char × Act)) : StatsMap :=
  acts.foldl (fun mm pa => applyAct mm pa.1 pa.2) m

/-- The stat record `parse_hand` yields for player `p`, read through the
`defaultdict` default; observers like this state the claims without
quantifying over the returned mapping. -/
def stOf (s p : List Char) : Option PStat :=
  match parse_hand s with
  | .ok (some m) => m.lookup p
  | _ => none

/-- The `vpip` counter `parse_hand` yields for `p` (0 outside a success). -/
def vpipOf (s p : List Char) : Nat :=
  match parse_hand s with
  | .ok (some m) => (getSt m p).vpip
  | _ => 0

/-- The seats dict pass 1 builds for record `s` (empty if pass 1 raises). -/
def seatsOf (s : List Char) : Seats :=
  match pass1 (pyLines s) [] none with
  | .ok pr => pr.1
  | .error _ => []

/-- Names of the seated players of record `s`: occupants of the seat dict
after later duplicate seat declarations overwrite earlier ones. -/
def seatNamesOf (s : List Char) : List (List Char) :=
  (seatsOf s).map fun kv => kv.2.name

/-! ## Concrete records used by counterexamples and witnesses -/

/-- A valid 2-max record in which Alice both calls and raises preflop. -/
def exC1 : List Char :=
  ("Table 'T' 2-max Seat #1 is the button\nSeat 1: Alice ($100 in chips)\nSeat 2: Bob ($100 in chips)\n*** HOLE CARDS ***\nAlice: calls 5\nAlice: raises 10\nBob: folds").toList

/-- The stats `parse_hand` produces for `exC1` (checked by `decide`). -/
def mapC1 : StatsMap :=
  [(("Alice").toList, ⟨1, 2, 1, 0, ("BTN").toList⟩),
   (("Bob").toList, ⟨1, 0, 0, 0, ("BB").toList⟩)]

/-- A valid 3-max record with raises by two different players: Bob raises
twice (positions 1 and 3 of the action sequence), Carol raises once in
between and then calls. -/
def exC3 : List Char :=
  ("Table 'T' 3-max Seat #2 is the button\nSeat 1: Alice ($100 in chips)\nSeat 2: Bob ($100 in chips)\nSeat 3: Carol ($100 in chips)\n*** HOLE CARDS ***\nBob: raises 10\nCarol: raises 30\nBob: raises 90\nCarol: calls 60\nAlice: folds\n*** FLOP *** [2h 7c 9d]").toList

/-- The stats `parse_hand` produces for `exC3` (checked by `decide`). -/
def mapC3 : StatsMap :=
  [(("Alice").toList, ⟨1, 0, 0, 0, ("BB").toList⟩),
   (("Bob").toList, ⟨1, 2, 1, 1, ("BTN").toList⟩),
   (("Carol").toList, ⟨1, 2, 1, 0, ("SB").toList⟩)]

/-- A valid 2-max record with a preflop call by `Ghost`, a name declared by
no seat line. -/
def exC6 : List Char :=
  ("Table 'T' 2-max Seat #1 is the button\nSeat 1: Alice ($100 in chips)\nSeat 2: Bob ($100 in chips)\n*** HOLE CARDS ***\nGhost: calls 5\nBob: folds").toList

/-- The stats `parse_hand` produces for `exC6` (checked by `decide`). -/
def mapC6 : StatsMap :=
  [(("Alice").toList, ⟨1, 0, 0, 0, ("BTN").toList⟩),
   (("Bob").toList, ⟨1, 0, 0, 0, ("BB").toList⟩),
   (("Ghost").toList, ⟨0, 1, 0, 0, []⟩)]

/-- A valid 2-max record with a preflop raise by `Intruder`, a name declared
by no seat line. -/
def exC10 : List Char :=
  ("Table 'T' 2-max Seat #1 is the button\nSeat 1: Alice ($100 in chips)\nSeat 2: Bob ($100 in chips)\n*** HOLE CARDS ***\nIntruder: raises 10\nBob: folds").toList

/-- A record whose only line is a seat declaration whose chips text `"."`
matches `[\d.]+` but is rejected by Python `float`. -/
def exBadChips : List Char :=
  ("Seat 1: Bob ($. in chips)").toList

/-- A record with one well-formed seat line and no button line. -/
def exC2 : List Char :=
  ("Seat 1: Alice ($100 in chips)").toList

/-- A blob starting with the bare header literal but no full header match
(no digits+colon after the `#`). -/
def exC7 : List Char :=
  ("PokerStars Hand #x junk").toList

/-- A blob of two well-formed records, back to back. -/
def exSplitBlob : List Char :=
  ("PokerStars Hand #1: a\nSeat 1: A\nPokerStars Hand #22: b\nfold").toList

/-- The first chunk `split_hands` produces from `exSplitBlob`. -/
def exChunk1 : List Char :=
  ("PokerStars Hand #1: a\nSeat 1: A").toList

/-- Well-formed hand record for the segmentation round trip: it begins with
a full header match, and the header literal `PokerStars Hand #` occurs at no
later position (so no extra split point can fire inside it or across a
record boundary). -/
def wellFormedRecord (r : List Char) : Bool :=
  isHeaderAt r && (r.tails.drop 1).all fun t => !(isPref litHandHdr t)

/-- Two concrete well-formed records for the round-trip witness. -/
def exRecs : List (List Char) :=
  [("PokerStars Hand #1: a\nSeat 1: A\n").toList,
   ("PokerStars Hand #22: b\nfold\n").toList]

/-- Reference recursion for pass 1's seats dict. -/
def p1Seats : List (List Char) → Seats → Seats
  | [], seats => seats
  | l :: rest, seats =>
      match seatMatch l with
      | some sm => p1Seats rest (dictSet seats sm.seatNum ⟨sm.name, sm.chips⟩)
      | none => p1Seats rest seats

/-- Reference recursion for pass 1's button seat (last button line wins). -/
def p1Btn : List (List Char) → Option Nat → Option Nat
  | [], btn => btn
  | l :: rest, btn =>
      match butMatch l with
      | some b => p1Btn rest (some b)
      | none => p1Btn rest btn

/-- Whether record `s` has no line matching `SEAT_LINE`. -/
def noSeatLine (s : List Char) : Bool :=
  (pyLines s).all fun l => (seatMatch l).isNone

/-- Whether record `s` has no line matching `BUTTON_LINE`. -/
def noButtonLine (s : List Char) : Bool :=
  (pyLines s).all fun l => (butMatch l).isNone

/-- All seat numbers declared by `SEAT_LINE` matches of record `s`. -/
def seatNumsOf (s : List Char) : List Nat :=
  (pyLines s).filterMap fun l => (seatMatch l).map SeatMatch.seatNum

/-- The effective declared button seat of record `s`: the last button line
wins, as in pass 1. -/
def lastBtnOf (s : List Char) : Option Nat :=
  ((pyLines s).filterMap butMatch).foldl (fun _ b => some b) none

/-- The seat occupants walked in ascending seat-number order: the table ring
independent of the button. -/
def ringNames (seats : Seats) : List (List Char) :=
  (sortedSeatKeys seats).map (occupant seats)

/-- The seat occupants walked in ring order starting at the button. -/
def rotatedNames (seats : Seats) (button : Nat) : List (List Char) :=
  (rotatedSeatKeys seats button).map (occupant seats)

/-- The position-map loop on the occupant names alone: labels depend only on
the rotated index, names give the dict keys. -/
def buildByNames (labels : List (List Char)) :
    List (List Char) → Nat → List (List Char × List Char) → List (List Char × List Char)
  | [], _, pm => pm
  | nm :: rest, i, pm =>
      buildByNames labels rest (i + 1) (dictSet pm nm (posLabelAt labels i))

/-- Three-seat table for the ring-invariance witness. -/
def exSeats1 : Seats :=
  [(1, ⟨("Ann").toList, ("100").toList⟩), (2, ⟨("Ben").toList, ("100").toList⟩),
   (3, ⟨("Cal").toList, ("100").toList⟩)]

/-- The ring of `exSeats1` relabeled to seats 4..6 with ring offset 1. -/
def exSeats2 : Seats :=
  [(4, ⟨("Ben").toList, ("100").toList⟩), (5, ⟨("Cal").toList, ("100").toList⟩),
   (6, ⟨("Ann").toList, ("100").toList⟩)]

/-- Seven-seat table for the synthesized-label witness. -/
def exSeats7 : Seats :=
  [(1, ⟨("P1").toList, ("100").toList⟩), (2, ⟨("P2").toList, ("100").toList⟩),
   (3, ⟨("P3").toList, ("100").toList⟩), (4, ⟨("P4").toList, ("100").toList⟩),
   (5, ⟨("P5").toList, ("100").toList⟩), (6, ⟨("P6").toList, ("100").toList⟩),
   (7, ⟨("P7").toList, ("100").toList⟩)]

/-- The failure condition of claim C2: no seat-declaration line, or no
button-declaration line, or an effective declared button seat matching no
seat-declaration line. -/
def c2Cond (s : List Char) : Bool :=
  noSeatLine s || noButtonLine s ||
    (match lastBtnOf s with
     | some b => !(decide (b ∈ seatNumsOf s))
     | none => false)

/-! ## Dict lemmas -/

theorem lookup_dictSet_self {α β : Type} [BEq α] [LawfulBEq α]
    (m : List (α × β)) (k : α) (v : β) :
    (dictSet m k v).lookup k = some v := by
  induction m with
  | nil => simp [dictSet, List.lookup]
  | cons hd t ih =>
      obtain ⟨k₁, v₁⟩ := hd
      by_cases h : k₁ = k
      · subst h
        simp [dictSet, List.lookup]
      · have hb : (k₁ == k) = false := by simp [h]
        have hb2 : (k == k₁) = false := by simp [Ne.symm h]
        simp [dictSet, hb, List.lookup, hb2, ih]

theorem lookup_dictSet_ne {α β : Type} [BEq α] [LawfulBEq α]
    (m : List (α × β)) (k : α) (v : β) (q : α) (h : q ≠ k) :
    (dictSet m k v).lookup q = m.lookup q := by
  have hq : (q == k) = false := by simp [h]
  induction m with
  | nil => simp [dictSet, List.lookup, hq]
  | cons hd t ih =>
      obtain ⟨k₁, v₁⟩ := hd
      by_cases h1 : k₁ = k
      · subst h1
        have hb : (q == k₁) = false := by simp [h]
        simp [dictSet, List.lookup, hb]
      · have hb : (k₁ == k) = false := by simp [h1]
        by_cases h2 : q = k₁
        · subst h2
          simp [dictSet, hb, List.lookup]
        · have hb2 : (q == k₁) = false := by simp [h2]
          simp [dictSet, hb, List.lookup, hb2, ih]

theorem dictSet_ne_nil {α β : Type} [BEq α] (m : List (α × β)) (k : α) (v : β) :
    dictSet m k v ≠ [] := by
  cases m with
  | nil => simp [dictSet]
  | cons hd t =>
      obtain ⟨k₁, v₁⟩ := hd
      by_cases h : (k₁ == k) = true <;> simp [dictSet, h]

theorem getSt_dictSet_self (m : StatsMap) (p : List Char) (v : PStat) :
    getSt (dictSet m p v) p = v := by
  simp [getSt, lookup_dictSet_self]

theorem getSt_dictSet_ne (m : StatsMap) (p : List Char) (v : PStat)
    (q : List Char) (h : q ≠ p) :
    getSt (dictSet m p v) q = getSt m q := by
  simp [getSt, lookup_dictSet_ne m p v q h]

theorem getSt_bumpSt_self (m : StatsMap) (p : List Char) (f : PStat → PStat) :
    getSt (bumpSt m p f) p = f (getSt m p) := by
  simp [bumpSt, getSt_dictSet_self]

theorem getSt_bumpSt_ne (m : StatsMap) (p : List Char) (f : PStat → PStat)
    (q : List Char) (h : q ≠ p) :
    getSt (bumpSt m p f) q = getSt m q := by
  simp [bumpSt, getSt_dictSet_ne _ _ _ _ h]

/-! ## Pass 2 as a fold over the preflop action sequence -/

theorem pass2_eq_applyActs (lines : List (List Char)) :
    ∀ (pf : Bool) (m : StatsMap), pass2 lines pf m = applyActs m (actSeq lines pf) := by
  induction lines with
  | nil => intro pf m; simp [pass2, actSeq, applyActs]
  | cons line rest ih =>
      intro pf m
      by_cases h1 : isPref litHoleCards line = true
      · simp [pass2, actSeq, h1, ih]
      · by_cases h2 : isPref litFlop line = true
        · simp [pass2, actSeq, h1, h2, applyActs]
        · cases pf with
          | false => simp [pass2, actSeq, h1, h2, ih]
          | true =>
              cases ham : actionMatch line with
              | none => simp [pass2, actSeq, h1, h2, ham, ih]
              | some pa => simp [pass2, actSeq, h1, h2, ham, ih, applyActs]

theorem getSt_applyAct_ne (m : StatsMap) (q : List Char) (a : Act)
    (p : List Char) (h : p ≠ q) :
    getSt (applyAct m q a) p = getSt m p := by
  unfold applyAct
  cases a <;> simp [getSt_bumpSt_ne _ _ _ _ h] <;>
    split <;> simp [getSt_bumpSt_ne _ _ _ _ h]

/-- Full accounting of one pass-2 fold: `hands_played` and `position` are
untouched, `vpip` gains one per qualifying action, and the first raise goes
to `pfr` with every later raise going to `three_bet`. -/
theorem getSt_applyActs (acts : List (List Char × Act)) :
    ∀ (m : StatsMap) (p : List Char),
      (getSt (applyActs m acts) p).hands_played = (getSt m p).hands_played ∧
      (getSt (applyActs m acts) p).position = (getSt m p).position ∧
      (getSt (applyActs m acts) p).vpip = (getSt m p).vpip + qualIn p acts ∧
      (getSt (applyActs m acts) p).pfr =
        (if (getSt m p).pfr = 0 then min 1 (raisesIn p acts) else (getSt m p).pfr) ∧
      (getSt (applyActs m acts) p).three_bet =
        (getSt m p).three_bet +
          (if (getSt m p).pfr = 0 then raisesIn p acts - min 1 (raisesIn p acts)
           else raisesIn p acts) := by
  induction acts with
  | nil =>
      intro m p
      refine ⟨rfl, rfl, by simp [applyActs, qualIn], ?_, ?_⟩
      · by_cases h : (getSt m p).pfr = 0 <;> simp [applyActs, raisesIn, h]
      · by_cases h : (getSt m p).pfr = 0 <;> simp [applyActs, raisesIn, h]
  | cons qa t ih =>
      intro m p
      obtain ⟨q, a⟩ := qa
      have hfold : applyActs m ((q, a) :: t) = applyActs (applyAct m q a) t := rfl
      by_cases hqp : q = p
      · subst hqp
        have hq : (q == q) = true := by simp
        cases a with
        | folds =>
            have hm : applyAct m q Act.folds = m := by simp [applyAct]
            simp [hfold, hm, qualIn, raisesIn, List.filter_cons, ih]
        | checks =>
            have hm : applyAct m q Act.checks = m := by simp [applyAct]
            simp [hfold, hm, qualIn, raisesIn, List.filter_cons, ih]
        | bets =>
            have hm : applyAct m q Act.bets = m := by simp [applyAct]
            simp [hfold, hm, qualIn, raisesIn, List.filter_cons, ih]
        | calls =>
            have hm : applyAct m q Act.calls =
                bumpSt m q (fun st => { st with vpip := st.vpip + 1 }) := by
              simp [applyAct]
            have hst : getSt (applyAct m q Act.calls) q =
                { getSt m q with vpip := (getSt m q).vpip + 1 } := by
              rw [hm, getSt_bumpSt_self]
            obtain ⟨ih1, ih2, ih3, ih4, ih5⟩ := ih (applyAct m q Act.calls) q
            rw [hfold]
            rw [ih1, ih2, ih3, ih4, ih5, hst]
            simp only [qualIn, raisesIn, List.filter_cons]
            simp only [hq]
            simp
            omega
        | raises =>
            have hv : getSt (bumpSt m q (fun st => { st with vpip := st.vpip + 1 })) q =
                { getSt m q with vpip := (getSt m q).vpip + 1 } := getSt_bumpSt_self ..
            by_cases hp0 : (getSt m q).pfr = 0
            · have hm : applyAct m q Act.raises =
                  bumpSt (bumpSt m q (fun st => { st with vpip := st.vpip + 1 })) q
                    (fun st => { st with pfr := st.pfr + 1 }) := by
                simp [applyAct, hv, hp0]
              have hst : getSt (applyAct m q Act.raises) q =
                  { getSt m q with vpip := (getSt m q).vpip + 1,
                                   pfr := (getSt m q).pfr + 1 } := by
                rw [hm, getSt_bumpSt_self, hv]
              obtain ⟨ih1, ih2, ih3, ih4, ih5⟩ := ih (applyAct m q Act.raises) q
              rw [hfold, ih1, ih2, ih3, ih4, ih5, hst]
              simp only [qualIn, raisesIn, List.filter_cons]
              simp only [hq]
              simp [hp0]
              omega
            · have hm : applyAct m q Act.raises =
                  bumpSt (bumpSt m q (fun st => { st with vpip := st.vpip + 1 })) q
                    (fun st => { st with three_bet := st.three_bet + 1 }) := by
                simp [applyAct, hv, hp0]
              have hst : getSt (applyAct m q Act.raises) q =
                  { getSt m q with vpip := (getSt m q).vpip + 1,
                                   three_bet := (getSt m q).three_bet + 1 } := by
                rw [hm, getSt_bumpSt_self, hv]
              obtain ⟨ih1, ih2, ih3, ih4, ih5⟩ := ih (applyAct m q Act.raises) q
              rw [hfold, ih1, ih2, ih3, ih4, ih5, hst]
              simp only [qualIn, raisesIn, List.filter_cons]
              simp only [hq]
              simp [hp0]
              omega
      · have hq : (q == p) = false := by simp [hqp]
        have hst : getSt (applyAct m q a) p = getSt m p :=
          getSt_applyAct_ne m q a p (Ne.symm hqp)
        obtain ⟨ih1, ih2, ih3, ih4, ih5⟩ := ih (applyAct m q a) p
        rw [hfold, ih1, ih2, ih3, ih4, ih5, hst]
        simp [qualIn, raisesIn, List.filter_cons, hq]

/-! ## Stats initialization accounting -/

/-- The initialization loop leaves the action counters alone and sets
`hands_played` to 1 exactly for the seated names. -/
theorem getSt_initStats (seats : Seats) (pos : List (List Char × List Char)) :
    ∀ (m : StatsMap) (p : List Char),
      (getSt (initStats seats pos m) p).vpip = (getSt m p).vpip ∧
      (getSt (initStats seats pos m) p).pfr = (getSt m p).pfr ∧
      (getSt (initStats seats pos m) p).three_bet = (getSt m p).three_bet ∧
      (getSt (initStats seats pos m) p).hands_played =
        (if p ∈ seats.map (fun kv => kv.2.name) then 1
         else (getSt m p).hands_played) := by
  induction seats with
  | nil => intro m p; simp [initStats]
  | cons hd rest ih =>
      intro m p
      obtain ⟨k, si⟩ := hd
      have hfold : initStats ((k, si) :: rest) pos m = initStats rest pos
          (dictSet m si.name
            { getSt m si.name with hands_played := 1,
                                   position := posGet pos si.name }) := rfl
      obtain ⟨ih1, ih2, ih3, ih4⟩ := ih (dictSet m si.name
        { getSt m si.name with hands_played := 1,
                               position := posGet pos si.name }) p
      rw [hfold, ih1, ih2, ih3, ih4]
      by_cases hnp : p = si.name
      · subst hnp
        rw [getSt_dictSet_self]
        simp
      · rw [getSt_dictSet_ne _ _ _ _ hnp]
        refine ⟨rfl, rfl, rfl, ?_⟩
        rw [List.map_cons]
        by_cases hmem : p ∈ rest.map fun kv => kv.2.name
        · rw [if_pos hmem, if_pos (List.mem_cons_of_mem _ hmem)]
        · have hno : p ∉ si.name :: rest.map fun kv => kv.2.name := by
            simp [List.mem_cons, hnp, hmem]
          rw [if_neg hmem, if_neg hno]

/-- Inversion of a successful `parse_hand` run into its pass-1 result,
guard facts, and the pass-2 product. -/
theorem parse_hand_ok_some {s : List Char} {m : StatsMap}
    (h : parse_hand s = .ok (some m)) :
    ∃ seats b, pass1 (pyLines s) [] none = .ok (seats, some b) ∧
      seats.isEmpty = false ∧ (seats.lookup b).isSome = true ∧
      (determine_positions seats b).isEmpty = false ∧
      m = pass2 (pyLines s) false
        (initStats seats (determine_positions seats b) []) := by
  unfold parse_hand at h
  cases hp : pass1 (pyLines s) [] none with
  | error e => rw [hp] at h; exact absurd h (by simp)
  | ok pr =>
      obtain ⟨seats, obtn⟩ := pr
      rw [hp] at h
      simp only at h
      by_cases hse : seats.isEmpty
      · rw [if_pos hse] at h; exact absurd h (by simp)
      · rw [if_neg hse] at h
        cases obtn with
        | none => exact absurd h (by simp)
        | some b =>
            simp only at h
            by_cases hlk : (seats.lookup b).isNone
            · rw [if_pos hlk] at h; exact absurd h (by simp)
            · rw [if_neg hlk] at h
              by_cases hpe : (determine_positions seats b).isEmpty
              · rw [if_pos hpe] at h; exact absurd h (by simp)
              · rw [if_neg hpe] at h
                simp only [Except.ok.injEq, Option.some.injEq] at h
                exact ⟨seats, b, rfl, by simpa using hse,
                  by simpa [Option.isSome_iff_ne_none, Option.isNone_iff_eq_none] using hlk,
                  by simpa using hpe, h.symm⟩

/-! ## Claims C1, C3, C6, C10 -/

/-- Claim C1, counterexample: in `exC1` Alice calls and then raises preflop,
and her `vpip` counter comes out 2 — not 0 or 1 as the claim states. -/
theorem c1_vpip_cap_cex :
    ¬ (vpipOf exC1 (("Alice").toList) = 0 ∨ vpipOf exC1 (("Alice").toList) = 1) := by
  decide

/-- Claim C1, amended: the `vpip` counter in a successful `parse_hand` result
equals the number of qualifying preflop actions (calls or raises) by that
player — the code increments it per action (`+= 1`) rather than capping it
at 1, so it is 0 or 1 only when the player made at most one qualifying
action. -/
theorem c1_vpip_eq_qualifying (s : List Char) (m : StatsMap) (p : List Char)
    (hm : parse_hand s = .ok (some m)) :
    (getSt m p).vpip = vpipActCount p s := by
  obtain ⟨seats, b, hp, hse, hlk, hpe, hm2⟩ := parse_hand_ok_some hm
  subst hm2
  rw [pass2_eq_applyActs]
  obtain ⟨-, -, h3, -, -⟩ := getSt_applyActs (actSeq (pyLines s) false)
    (initStats seats (determine_positions seats b) []) p
  rw [h3]
  obtain ⟨i1, -, -, -⟩ := getSt_initStats seats (determine_positions seats b) [] p
  rw [i1]
  simp [getSt, defaultPStat, vpipActCount, preflopActions, List.lookup]

/-- Witness for the amended claim C1: the theorem applied to `exC1`/Alice,
whose `vpip` is her qualifying-action count 2. -/
theorem c1_vpip_eq_qualifying_witness :
    parse_hand exC1 = .ok (some mapC1) ∧
      (getSt mapC1 (("Alice").toList)).vpip = vpipActCount (("Alice").toList) exC1 :=
  ⟨by decide, c1_vpip_eq_qualifying exC1 mapC1 (("Alice").toList) (by decide)⟩

/-- Claim C3: PFR/3-bet counters are per player: a player with `k ≥ 1`
preflop raises ends the hand with `pfr = 1` and `three_bet = k - 1`,
whatever the other players did. -/
theorem c3_pfr_three_bet_per_player (s : List Char) (m : StatsMap)
    (p : List Char) (k : Nat) (hm : parse_hand s = .ok (some m))
    (hk : raiseCount p s = k) (h1 : 1 ≤ k) :
    (getSt m p).pfr = 1 ∧ (getSt m p).three_bet = k - 1 := by
  obtain ⟨seats, b, hp, hse, hlk, hpe, hm2⟩ := parse_hand_ok_some hm
  subst hm2
  rw [pass2_eq_applyActs]
  obtain ⟨-, -, -, h4, h5⟩ := getSt_applyActs (actSeq (pyLines s) false)
    (initStats seats (determine_positions seats b) []) p
  obtain ⟨-, i2, i3, -⟩ := getSt_initStats seats (determine_positions seats b) [] p
  have hpfr0 : (getSt (initStats seats (determine_positions seats b) []) p).pfr = 0 := by
    rw [i2]; simp [getSt, defaultPStat, List.lookup]
  have htb0 : (getSt (initStats seats (determine_positions seats b) []) p).three_bet = 0 := by
    rw [i3]; simp [getSt, defaultPStat, List.lookup]
  have hkk : raisesIn p (actSeq (pyLines s) false) = k := hk
  rw [h4, h5, if_pos hpfr0, if_pos hpfr0, htb0, hkk]
  omega

/-- Witness for claim C3: in `exC3` Bob raises twice (`k = 2`) around a raise
by Carol, and ends with `pfr = 1`, `three_bet = 1`. -/
theorem c3_pfr_three_bet_witness :
    parse_hand exC3 = .ok (some mapC3) ∧ raiseCount (("Bob").toList) exC3 = 2 ∧
      (getSt mapC3 (("Bob").toList)).pfr = 1 ∧
      (getSt mapC3 (("Bob").toList)).three_bet = 2 - 1 :=
  ⟨by decide, by decide,
    c3_pfr_three_bet_per_player exC3 mapC3 (("Bob").toList) 2 (by decide) (by decide) (by decide)⟩

/-- Claim C6, counterexample: in `exC6` the non-seated name `Ghost` appears
in the returned mapping (vivified by its preflop call) with
`hands_played = 0`, so not every player in the mapping has
`hands_played = 1`. -/
theorem c6_hands_played_cex :
    (stOf exC6 (("Ghost").toList)).isSome = true ∧
      ((stOf exC6 (("Ghost").toList)).getD defaultPStat).hands_played ≠ 1 := by
  decide

/-- Claim C6, amended: every *seated* player of a successfully parsed record
has `hands_played = 1`; entries vivified for non-seated actors keep
`hands_played = 0`. -/
theorem c6_hands_played_seated (s : List Char) (m : StatsMap) (nm : List Char)
    (hm : parse_hand s = .ok (some m)) (hseat : nm ∈ seatNamesOf s) :
    (getSt m nm).hands_played = 1 := by
  obtain ⟨seats, b, hp, hse, hlk, hpe, hm2⟩ := parse_hand_ok_some hm
  have hseats : seatsOf s = seats := by simp [seatsOf, hp]
  subst hm2
  rw [pass2_eq_applyActs]
  obtain ⟨h1, -, -, -, -⟩ := getSt_applyActs (actSeq (pyLines s) false)
    (initStats seats (determine_positions seats b) []) nm
  rw [h1]
  obtain ⟨-, -, -, i4⟩ := getSt_initStats seats (determine_positions seats b) [] nm
  rw [i4, if_pos]
  rw [seatNamesOf, hseats] at hseat
  exact hseat

/-- Witness for the amended claim C6: seated Alice of `exC6` has
`hands_played = 1`. -/
theorem c6_hands_played_seated_witness :
    parse_hand exC6 = .ok (some mapC6) ∧
      (("Alice").toList) ∈ seatNamesOf exC6 ∧
      (getSt mapC6 (("Alice").toList)).hands_played = 1 :=
  ⟨by decide, by decide,
    c6_hands_played_seated exC6 mapC6 (("Alice").toList) (by decide) (by decide)⟩

/-- Claim C10: in the valid record `exC10`, whose seat lines declare no
player named `Intruder`, the preflop raise line by `Intruder` vivifies an
entry for that name with `hands_played = 0`, empty position, and
`vpip = pfr = 1`, `three_bet = 0`. -/
theorem c10_nonseated_entry :
    (((pyLines exC10).filterMap fun l => (seatMatch l).map SeatMatch.name).contains
        (("Intruder").toList)) = false ∧
      stOf exC10 (("Intruder").toList) = some ⟨0, 1, 1, 0, []⟩ := by
  decide

/-! ## Pass-1 characterization (claims C2, C4) -/

theorem dropLit_isPref {lit s r : List Char} (h : dropLit lit s = some r) :
    isPref lit s = true := by
  unfold dropLit at h
  split at h
  · assumption
  · exact absurd h (by simp)

theorem isPref_head_eq {l₁ l₂ : List Char} {c : Char} (h : isPref l₁ l₂ = true)
    (hc : l₁.head? = some c) : l₂.head? = some c := by
  cases l₁ with
  | nil => exact absurd hc (by simp)
  | cons a as =>
      cases l₂ with
      | nil => exact absurd h (by simp [isPref])
      | cons b bs =>
          have hab : a = b := by
            have h2 := h
            simp [isPref] at h2
            exact h2.1
          have hac : a = c := by simpa using hc
          simp [← hab, hac]

theorem seatMatch_isPref {l : List Char} {sm : SeatMatch}
    (h : seatMatch l = some sm) : isPref litSeat l = true := by
  unfold seatMatch at h
  cases hd : dropLit litSeat l with
  | none => rw [hd] at h; exact absurd h (by simp)
  | some r1 => exact dropLit_isPref hd

theorem butMatch_isPref {l : List Char} {b : Nat}
    (h : butMatch l = some b) : isPref litTableQuote l = true := by
  unfold butMatch at h
  cases hd : dropLit litTableQuote l with
  | none => rw [hd] at h; exact absurd h (by simp)
  | some r1 => exact dropLit_isPref hd

/-- A line matching `SEAT_LINE` cannot match `BUTTON_LINE` (distinct anchored
literals), so pass 1's seat-first precedence drops no button line. -/
theorem butMatch_none_of_seatMatch {l : List Char} {sm : SeatMatch}
    (hs : seatMatch l = some sm) : butMatch l = none := by
  cases hb : butMatch l with
  | none => rfl
  | some b =>
      have e1 : l.head? = some 'S' := isPref_head_eq (seatMatch_isPref hs) (by decide)
      have e2 : l.head? = some 'T' := isPref_head_eq (butMatch_isPref hb) (by decide)
      rw [e1] at e2
      exact absurd e2 (by simp)

/-- When every seat line's chips text converts, pass 1 raises nothing and
returns the reference seats dict and last-button. -/
theorem pass1_eq_of_chipsOk (lines : List (List Char)) :
    ∀ (seats : Seats) (btn : Option Nat),
      (∀ l ∈ lines, ∀ sm, seatMatch l = some sm → chipsOk sm.chips = true) →
      pass1 lines seats btn = .ok (p1Seats lines seats, p1Btn lines btn) := by
  induction lines with
  | nil => intro seats btn _; rfl
  | cons l rest ih =>
      intro seats btn h
      have htail : ∀ l2 ∈ rest, ∀ sm, seatMatch l2 = some sm → chipsOk sm.chips = true :=
        fun l2 hl2 => h l2 (List.mem_cons_of_mem _ hl2)
      cases hsm : seatMatch l with
      | some sm =>
          have hchips := h l (List.mem_cons_self l rest) sm hsm
          have hbm := butMatch_none_of_seatMatch hsm
          simp [pass1, p1Seats, p1Btn, hsm, hchips, hbm, ih _ _ htail]
      | none =>
          cases hbm : butMatch l with
          | some b => simp [pass1, p1Seats, p1Btn, hsm, hbm, ih _ _ htail]
          | none => simp [pass1, p1Seats, p1Btn, hsm, hbm, ih _ _ htail]

theorem p1Seats_ne_nil (lines : List (List Char)) :
    ∀ (seats : Seats), seats ≠ [] → p1Seats lines seats ≠ [] := by
  induction lines with
  | nil => intro seats h; exact h
  | cons l rest ih =>
      intro seats h
      cases hsm : seatMatch l with
      | some sm => simpa [p1Seats, hsm] using ih _ (dictSet_ne_nil seats sm.seatNum _)
      | none => simpa [p1Seats, hsm] using ih _ h

theorem p1Seats_nil_iff (lines : List (List Char)) :
    ∀ (seats : Seats),
      p1Seats lines seats = [] ↔ (seats = [] ∧ ∀ l ∈ lines, seatMatch l = none) := by
  induction lines with
  | nil => intro seats; simp [p1Seats]
  | cons l rest ih =>
      intro seats
      cases hsm : seatMatch l with
      | some sm =>
          rw [show p1Seats (l :: rest) seats =
              p1Seats rest (dictSet seats sm.seatNum ⟨sm.name, sm.chips⟩) by
            simp [p1Seats, hsm]]
          constructor
          · intro h
            exact absurd h
              (p1Seats_ne_nil rest (dictSet seats sm.seatNum ⟨sm.name, sm.chips⟩)
                (dictSet_ne_nil seats sm.seatNum ⟨sm.name, sm.chips⟩))
          · rintro ⟨-, hall⟩
            exact absurd (hall l (List.mem_cons_self l rest)) (by simp [hsm])
      | none =>
          simp [p1Seats, hsm, ih, List.forall_mem_cons]

theorem lookup_dictSet_isSome {α β : Type} [BEq α] [LawfulBEq α]
    (m : List (α × β)) (k₀ : α) (v : β) (k : α) :
    ((dictSet m k₀ v).lookup k).isSome = true ↔
      (k = k₀ ∨ (m.lookup k).isSome = true) := by
  by_cases h : k = k₀
  · subst h; simp [lookup_dictSet_self]
  · simp [lookup_dictSet_ne m k₀ v k h, h]

theorem p1Seats_lookup_isSome (lines : List (List Char)) :
    ∀ (seats : Seats) (k : Nat),
      ((p1Seats lines seats).lookup k).isSome = true ↔
        ((seats.lookup k).isSome = true ∨
          k ∈ lines.filterMap fun l => (seatMatch l).map SeatMatch.seatNum) := by
  induction lines with
  | nil => intro seats k; simp [p1Seats]
  | cons l rest ih =>
      intro seats k
      cases hsm : seatMatch l with
      | some sm =>
          rw [show p1Seats (l :: rest) seats =
            p1Seats rest (dictSet seats sm.seatNum ⟨sm.name, sm.chips⟩) by
              simp [p1Seats, hsm]]
          rw [ih, lookup_dictSet_isSome]
          simp [hsm]
          tauto
      | none =>
          rw [show p1Seats (l :: rest) seats = p1Seats rest seats by simp [p1Seats, hsm]]
          rw [ih]
          simp [hsm]

theorem p1Btn_eq (lines : List (List Char)) :
    ∀ (btn : Option Nat),
      p1Btn lines btn = (lines.filterMap butMatch).foldl (fun _ b => some b) btn := by
  induction lines with
  | nil => intro btn; rfl
  | cons l rest ih =>
      intro btn
      cases hbm : butMatch l with
      | some b => simp [p1Btn, hbm, ih]
      | none => simp [p1Btn, hbm, ih]

theorem foldlLast_isSome (bs : List Nat) :
    ∀ (x : Nat), (bs.foldl (fun _ b => some b) (some x)).isSome = true := by
  induction bs with
  | nil => intro x; rfl
  | cons b t ih => intro x; simpa [List.foldl_cons] using ih b

theorem p1Btn_none_iff (lines : List (List Char)) :
    p1Btn lines none = none ↔ ∀ l ∈ lines, butMatch l = none := by
  rw [p1Btn_eq]
  constructor
  · intro h l hl
    cases hbm : butMatch l with
    | none => rfl
    | some b =>
        exfalso
        have hmem : b ∈ lines.filterMap butMatch :=
          List.mem_filterMap.mpr ⟨l, hl, hbm⟩
        cases hfm : lines.filterMap butMatch with
        | nil => rw [hfm] at hmem; exact absurd hmem (by simp)
        | cons c t =>
            rw [hfm] at h
            have := foldlLast_isSome t c
            rw [List.foldl_cons] at h
            rw [h] at this
            exact absurd this (by simp)
  · intro h
    have hfm : lines.filterMap butMatch = [] := by
      rw [List.filterMap_eq_nil_iff]
      exact h
    rw [hfm]
    rfl

theorem lookup_isSome_mem_keys {α β : Type} [BEq α] [LawfulBEq α]
    (m : List (α × β)) (k : α) :
    (m.lookup k).isSome = true ↔ k ∈ m.map Prod.fst := by
  induction m with
  | nil => simp [List.lookup]
  | cons hd t ih =>
      obtain ⟨k₁, v₁⟩ := hd
      by_cases h : k = k₁
      · subst h; simp [List.lookup]
      · have hb : (k == k₁) = false := by simp [h]
        simp [List.lookup, hb, ih, h]

theorem buildPosMap_ne_nil (seats : Seats) (labels : List (List Char))
    (ks : List Nat) :
    ∀ (i : Nat) (pm : List (List Char × List Char)),
      pm ≠ [] → buildPosMap seats labels ks i pm ≠ [] := by
  induction ks with
  | nil => intro i pm h; exact h
  | cons k rest ih =>
      intro i pm _
      exact ih (i + 1) _ (dictSet_ne_nil pm (occupant seats k) (posLabelAt labels i))

/-- Whenever the button seat is a key of the seats dict, the returned
position mapping is nonempty — the defensive `if not positions` guard in
`parse_hand` can only fire together with the earlier button guard. -/
theorem determine_positions_ne_nil (seats : Seats) (b : Nat)
    (h : (seats.lookup b).isSome = true) : determine_positions seats b ≠ [] := by
  have hmem : b ∈ seats.map Prod.fst := (lookup_isSome_mem_keys seats b).mp h
  have hso : b ∈ sortedSeatKeys seats := by
    unfold sortedSeatKeys
    exact ((List.perm_insertionSort _ _).mem_iff).mpr hmem
  have hbmem : b ∈ rotatedSeatKeys seats b := by
    unfold rotatedSeatKeys
    have h2 : b ∈ (sortedSeatKeys seats).take ((sortedSeatKeys seats).indexOf b) ++
        (sortedSeatKeys seats).drop ((sortedSeatKeys seats).indexOf b) := by
      rw [List.take_append_drop]
      exact hso
    rcases List.mem_append.mp h2 with h3 | h3
    · exact List.mem_append.mpr (Or.inr h3)
    · exact List.mem_append.mpr (Or.inl h3)
  unfold determine_positions
  rw [if_pos hso]
  cases hr : rotatedSeatKeys seats b with
  | nil =>
      rw [hr] at hbmem
      exact absurd hbmem (by simp)
  | cons k0 rest =>
      simp only [buildPosMap]
      exact buildPosMap_ne_nil _ _ rest 1 _ (dictSet_ne_nil [] _ _)

/-- Claim C4 (code bug): the seat line `Seat 1: Bob ($. in chips)` matches
`SEAT_LINE` with chips text `"."`, which Python `float` rejects, so
`parse_hand` raises `ValueError` instead of skipping the line or returning
the `None` sentinel. -/
theorem c4_float_exception :
    seatMatch exBadChips = some ⟨1, ("Bob").toList, (".").toList⟩ ∧
      chipsOk ((".").toList) = false ∧
      parse_hand exBadChips = .error () := by
  decide

/-- Claim C2, counterexample: `exBadChips` has no button-declaration line, so
the claim demands the failure sentinel, but `parse_hand` raises instead of
returning it. -/
theorem c2_sentinel_cex :
    ¬ (parse_hand exBadChips = .ok none ↔ c2Cond exBadChips = true) := by
  decide

/-- Claim C2, amended: on records whose seat-line chips texts all convert
(the `ValueError` defect of claim C4 aside), `parse_hand` returns the `None`
sentinel exactly when there is no seat line, or no button line, or the
effective (last) declared button seat matches no seat line. -/
theorem c2_sentinel_iff (s : List Char)
    (hok : ∀ l ∈ pyLines s, ∀ sm, seatMatch l = some sm → chipsOk sm.chips = true) :
    parse_hand s = .ok none ↔ c2Cond s = true := by
  have hp1 : pass1 (pyLines s) [] none =
      .ok (p1Seats (pyLines s) [], p1Btn (pyLines s) none) :=
    pass1_eq_of_chipsOk _ _ _ hok
  have hparse : parse_hand s =
      (if (p1Seats (pyLines s) []).isEmpty then Except.ok none
       else match p1Btn (pyLines s) none with
         | none => Except.ok none
         | some b =>
             if ((p1Seats (pyLines s) []).lookup b).isNone then Except.ok none
             else if (determine_positions (p1Seats (pyLines s) []) b).isEmpty then
               Except.ok none
             else Except.ok (some (pass2 (pyLines s) false
               (initStats (p1Seats (pyLines s) [])
                 (determine_positions (p1Seats (pyLines s) []) b) [])))) := by
    unfold parse_hand
    rw [hp1]
  have hlast : lastBtnOf s = p1Btn (pyLines s) none := (p1Btn_eq _ _).symm
  by_cases hfs : (p1Seats (pyLines s) []).isEmpty = true
  · have hnil : p1Seats (pyLines s) [] = [] := by simpa using hfs
    have hnoseat : noSeatLine s = true := by
      have := (p1Seats_nil_iff (pyLines s) []).mp hnil
      simp only [noSeatLine, List.all_eq_true]
      intro l hl
      simp [this.2 l hl]
    rw [hparse, if_pos hfs]
    exact ⟨fun _ => by simp [c2Cond, hnoseat], fun _ => rfl⟩
  · rw [hparse, if_neg hfs]
    have hnoseat : noSeatLine s = false := by
      by_contra hns
      have hns2 : noSeatLine s = true := by
        cases hq : noSeatLine s
        · exact absurd hq hns
        · rfl
      have hall : ∀ l ∈ pyLines s, seatMatch l = none := by
        intro l hl
        have := (List.all_eq_true.mp hns2) l hl
        simpa using this
      exact hfs (by simp [(p1Seats_nil_iff (pyLines s) []).mpr ⟨rfl, hall⟩])
    cases hfb : p1Btn (pyLines s) none with
    | none =>
        have hnobtn : noButtonLine s = true := by
          have := (p1Btn_none_iff (pyLines s)).mp hfb
          simp only [noButtonLine, List.all_eq_true]
          intro l hl
          simp [this l hl]
        exact ⟨fun _ => by simp [c2Cond, hnobtn], fun _ => rfl⟩
    | some b =>
        have hnobtn : noButtonLine s = false := by
          by_contra hnb
          have hnb2 : noButtonLine s = true := by
            cases hq : noButtonLine s
            · exact absurd hq hnb
            · rfl
          have hall : ∀ l ∈ pyLines s, butMatch l = none := by
            intro l hl
            have := (List.all_eq_true.mp hnb2) l hl
            simpa using this
          rw [(p1Btn_none_iff (pyLines s)).mpr hall] at hfb
          exact absurd hfb (by simp)
        have hlastb : lastBtnOf s = some b := by rw [hlast, hfb]
        by_cases hlk : ((p1Seats (pyLines s) []).lookup b).isNone = true
        · have hnotmem : b ∉ seatNumsOf s := by
            intro hmem
            have : ((p1Seats (pyLines s) []).lookup b).isSome = true :=
              (p1Seats_lookup_isSome (pyLines s) [] b).mpr (Or.inr hmem)
            rw [Option.isSome_iff_ne_none] at this
            exact this (by simpa using hlk)
          simp only []
          rw [if_pos hlk]
          refine ⟨fun _ => ?_, fun _ => rfl⟩
          simp [c2Cond, hlastb, hnotmem]
        · have hsome : ((p1Seats (pyLines s) []).lookup b).isSome = true := by
            cases hq : (p1Seats (pyLines s) []).lookup b
            · exact absurd (by simp [hq]) hlk
            · simp
          have hmem : b ∈ seatNumsOf s := by
            rcases (p1Seats_lookup_isSome (pyLines s) [] b).mp hsome with h | h
            · exact absurd h (by simp [List.lookup])
            · exact h
          have hpe : ¬ (determine_positions (p1Seats (pyLines s) []) b).isEmpty = true := by
            have := determine_positions_ne_nil _ _ hsome
            simpa using this
          simp only []
          rw [if_neg hlk, if_neg hpe]
          constructor
          · intro h
            exact absurd h (by simp)
          · intro hcond
            exfalso
            rw [c2Cond, hnoseat, hnobtn, hlastb] at hcond
            simp [hmem] at hcond

/-- Witness for the amended claim C2: `exC2` declares a seat but no button
line, and `parse_hand` returns the sentinel. -/
theorem c2_sentinel_iff_witness : parse_hand exC2 = .ok none :=
  (c2_sentinel_iff exC2 (by decide)).mpr (by decide)

/-! ## Header-pattern facts (claims C5, C7) -/

theorem isPref_iff_append {a b : List Char} :
    isPref a b = true ↔ ∃ t, b = a ++ t := by
  induction a generalizing b with
  | nil => simp [isPref]
  | cons c as ih =>
      cases b with
      | nil => simp [isPref]
      | cons d bs =>
          constructor
          · intro h
            have h2 := h
            simp only [isPref, Bool.and_eq_true, beq_iff_eq] at h2
            obtain ⟨t, ht⟩ := ih.mp h2.2
            exact ⟨t, by simp [h2.1, ht]⟩
          · rintro ⟨t, ht⟩
            simp only [List.cons_append, List.cons.injEq] at ht
            simp [isPref, ht.1, ih.mpr ⟨t, ht.2⟩]

theorem isPref_append_self (a t : List Char) : isPref a (a ++ t) = true :=
  isPref_iff_append.mpr ⟨t, rfl⟩

theorem dropLit_decomp {lit s r : List Char} (h : dropLit lit s = some r) :
    s = lit ++ r := by
  have hp := dropLit_isPref h
  obtain ⟨t, ht⟩ := isPref_iff_append.mp hp
  have hr : r = s.drop lit.length := by
    unfold dropLit at h
    rw [if_pos hp] at h
    exact (Option.some.injEq _ _ ▸ h).symm
  subst ht
  rw [hr, List.drop_left]

theorem dropLit_of_append (lit x : List Char) : dropLit lit (lit ++ x) = some x := by
  unfold dropLit
  rw [if_pos (isPref_append_self lit x), List.drop_left]

theorem takeWhile_dropWhile_build {p : Char → Bool} :
    ∀ (ds : List Char) (c : Char) (x : List Char),
      (∀ a ∈ ds, p a = true) → p c = false →
      (ds ++ c :: x).takeWhile p = ds ∧ (ds ++ c :: x).dropWhile p = c :: x := by
  intro ds
  induction ds with
  | nil => intro c x _ h3; simp [List.takeWhile_cons, List.dropWhile_cons, h3]
  | cons a t ih =>
      intro c x h2 h3
      have ha := h2 a (List.mem_cons_self a t)
      obtain ⟨iht, ihd⟩ := ih c x (fun b hb => h2 b (List.mem_cons_of_mem a hb)) h3
      simp [List.takeWhile_cons, List.dropWhile_cons, ha, iht, ihd]

theorem takeRun_build {p : Char → Bool} {ds : List Char} (c : Char) (x : List Char)
    (h1 : ds ≠ []) (h2 : ∀ a ∈ ds, p a = true) (h3 : p c = false) :
    takeRun p (ds ++ c :: x) = some (ds, c :: x) := by
  obtain ⟨htw, hdw⟩ := takeWhile_dropWhile_build ds c x h2 h3
  unfold takeRun
  rw [htw, hdw, if_neg (by simp [h1])]

theorem takeRun_inv {p : Char → Bool} {r1 ds r2 : List Char}
    (h : takeRun p r1 = some (ds, r2)) :
    r1 = ds ++ r2 ∧ ds ≠ [] ∧ ∀ c ∈ ds, p c = true := by
  unfold takeRun at h
  by_cases he : (r1.takeWhile p).isEmpty
  · rw [if_pos he] at h; exact absurd h (by simp)
  · rw [if_neg he] at h
    simp only [Option.some.injEq, Prod.mk.injEq] at h
    refine ⟨by rw [← h.1, ← h.2, List.takeWhile_append_dropWhile], ?_, ?_⟩
    · intro hds0
      rw [← h.1] at hds0
      simp [hds0] at he
    · intro c hc
      rw [← h.1] at hc
      exact List.mem_takeWhile_imp hc

theorem headerIdAt_inv {r ds : List Char} (h : headerIdAt r = some ds) :
    ∃ x, r = litHandHdr ++ (ds ++ ':' :: x) ∧ ds ≠ [] ∧
      ∀ c ∈ ds, isDigitC c = true := by
  unfold headerIdAt at h
  cases hd : dropLit litHandHdr r with
  | none => rw [hd] at h; exact absurd h (by simp)
  | some r1 =>
      rw [hd] at h
      simp only [] at h
      cases htr : takeRun isDigitC r1 with
      | none => rw [htr] at h; exact absurd h (by simp)
      | some pr =>
          obtain ⟨ds1, r2⟩ := pr
          rw [htr] at h
          simp only [] at h
          have hds : ds1 = ds ∧ r2.head? = some ':' := by
            by_cases hh : r2.head? == some ':'
            · rw [if_pos hh] at h
              exact ⟨by simpa using h, by simpa using hh⟩
            · rw [if_neg hh] at h
              exact absurd h (by simp)
          obtain ⟨rfl, hcol⟩ := hds
          obtain ⟨x, hr2⟩ : ∃ x, r2 = ':' :: x := by
            cases r2 with
            | nil => exact absurd hcol (by simp)
            | cons a t =>
                have ha : a = ':' := by simpa using hcol
                exact ⟨t, by rw [ha]⟩
          obtain ⟨hr1, hne, hdig⟩ := takeRun_inv htr
          exact ⟨x, by rw [dropLit_decomp hd, hr1, hr2], hne, hdig⟩

theorem headerIdAt_build {ds : List Char} (x : List Char) (h1 : ds ≠ [])
    (h2 : ∀ c ∈ ds, isDigitC c = true) :
    headerIdAt (litHandHdr ++ (ds ++ ':' :: x)) = some ds := by
  unfold headerIdAt
  rw [dropLit_of_append]
  simp only []
  rw [takeRun_build ':' x h1 h2 (by decide)]
  simp

theorem headerIdAt_append {r ds : List Char} (t : List Char)
    (h : headerIdAt r = some ds) : headerIdAt (r ++ t) = some ds := by
  obtain ⟨x, hr, hne, hdig⟩ := headerIdAt_inv h
  subst hr
  rw [List.append_assoc, List.append_assoc]
  simpa using headerIdAt_build (x ++ t) hne hdig

theorem isHeaderAt_append {r : List Char} (t : List Char)
    (h : isHeaderAt r = true) : isHeaderAt (r ++ t) = true := by
  obtain ⟨ds, hds⟩ := Option.isSome_iff_exists.mp h
  simp [isHeaderAt, headerIdAt_append t hds]

theorem isHeaderAt_isPref {s : List Char} (h : isHeaderAt s = true) :
    isPref litHandHdr s = true := by
  obtain ⟨ds, hds⟩ := Option.isSome_iff_exists.mp h
  obtain ⟨x, hr, -, -⟩ := headerIdAt_inv hds
  rw [hr]
  exact isPref_append_self _ _

theorem isHeaderAt_of_not_pref {s : List Char}
    (h : isPref litHandHdr s = false) : isHeaderAt s = false := by
  cases hh : isHeaderAt s
  · rfl
  · rw [isHeaderAt_isPref hh] at h
    exact absurd h (by simp)

/-- Claim C7, counterexample: `exC7` begins with the bare literal but not
with a full header match, is accepted by `split_hands` as a chunk, and
`get_hand_id` yields no identifier — the claim's "impossible by
construction" fails. -/
theorem c7_id_cex : split_hands exC7 = [exC7] ∧ get_hand_id exC7 = none := by
  decide

/-- Claim C7, amended: every chunk of `split_hands` output that begins with a
*full* header match (in particular every chunk opened at a split boundary)
yields an identifier under `get_hand_id`; only a leading chunk that begins
with the bare literal without completing the pattern can fail. -/
theorem c7_header_chunk_id (s c : List Char) (hc : c ∈ split_hands s)
    (hh : isHeaderAt c = true) : (get_hand_id c).isSome = true := by
  cases c with
  | nil => exact absurd hh (by decide)
  | cons c0 rest =>
      obtain ⟨ds, hds⟩ := Option.isSome_iff_exists.mp hh
      simp [get_hand_id, hds]

/-- Witness for the amended claim C7: the first chunk of `exSplitBlob`. -/
theorem c7_header_chunk_id_witness :
    exChunk1 ∈ split_hands exSplitBlob ∧ isHeaderAt exChunk1 = true ∧
      (get_hand_id exChunk1).isSome = true :=
  ⟨by decide, by decide, c7_header_chunk_id exSplitBlob exChunk1 (by decide) (by decide)⟩

/-! ## Segmentation round trip (claim C5) -/

theorem isPref_of_isPref_append {a v t : List Char} (h : isPref a (v ++ t) = true)
    (hl : a.length ≤ v.length) : isPref a v = true := by
  induction a generalizing v t with
  | nil => simp [isPref]
  | cons c as ih =>
      cases v with
      | nil => simp at hl
      | cons d vs =>
          simp only [List.cons_append, isPref, Bool.and_eq_true] at h ⊢
          exact ⟨h.1, ih h.2 (by simpa using hl)⟩

/-- The header literal cannot begin strictly inside a record tail of fewer
than 17 characters and finish inside following well-formed records: no
character of `PokerStars Hand #` after the first is a `P`, but the next
record starts with one. -/
theorem litHandHdr_no_cross (v t : List Char) (hv : v ≠ [])
    (hvl : v.length < litHandHdr.length)
    (ht : t = [] ∨ isPref litHandHdr t = true) :
    isPref litHandHdr (v ++ t) = false := by
  cases hpf : isPref litHandHdr (v ++ t) with
  | false => rfl
  | true =>
      exfalso
      obtain ⟨u, hu⟩ := isPref_iff_append.mp hpf
      rcases ht with rfl | hlit
      · have hlen := congrArg List.length hu
        simp at hlen
        omega
      · obtain ⟨w, hw⟩ := isPref_iff_append.mp hlit
        have hvpos : 0 < v.length := List.length_pos.mpr hv
        have ht0 : t[0]? = some 'P' := by
          rw [hw, List.getElem?_append_left (by decide : (0 : Nat) < litHandHdr.length)]
          decide
        have hl : (v ++ t)[v.length]? = some 'P' := by
          rw [List.getElem?_append_right (Nat.le_refl _)]
          simpa using ht0
        rw [hu, List.getElem?_append_left hvl] at hl
        have hmem : 'P' ∈ litHandHdr.drop 1 := by
          apply List.mem_iff_getElem?.mpr
          refine ⟨v.length - 1, ?_⟩
          rw [List.getElem?_drop]
          have he : 1 + (v.length - 1) = v.length := by omega
          rw [he]
          exact hl
        exact absurd hmem (by decide)

theorem wf_isHeaderAt {r : List Char} (h : wellFormedRecord r = true) :
    isHeaderAt r = true := by
  simp only [wellFormedRecord, Bool.and_eq_true] at h
  exact h.1

theorem wf_noInner {r : List Char} (h : wellFormedRecord r = true) :
    ∀ u ∈ r.tails.drop 1, isPref litHandHdr u = false := by
  simp only [wellFormedRecord, Bool.and_eq_true, List.all_eq_true] at h
  intro u hu
  have h2 := h.2 u hu
  simpa using h2

theorem drop_mem_tails (l : List Char) : ∀ (i : Nat), l.drop i ∈ l.tails := by
  induction l with
  | nil => intro i; simp
  | cons a l ih =>
      intro i
      cases i with
      | zero => simp [List.tails_cons]
      | succ j =>
          rw [List.drop_succ_cons, List.tails_cons]
          exact List.mem_cons_of_mem _ (ih j)

/-- Inside a well-formed record the header pattern matches at no positive
position, even looking across into the following records. -/
theorem wf_no_mid_header {r : List Char} (hwf : wellFormedRecord r = true)
    (t : List Char) (ht : t = [] ∨ isPref litHandHdr t = true) :
    ∀ i, 0 < i → i < r.length → isHeaderAt (r.drop i ++ t) = false := by
  intro i hi hir
  apply isHeaderAt_of_not_pref
  by_cases hlen : litHandHdr.length ≤ (r.drop i).length
  · cases hp : isPref litHandHdr (r.drop i ++ t) with
    | false => rfl
    | true =>
        exfalso
        have hpv : isPref litHandHdr (r.drop i) = true :=
          isPref_of_isPref_append hp hlen
        have hmem : r.drop i ∈ r.tails.drop 1 := by
          obtain ⟨a, l, rfl⟩ : ∃ a l, r = a :: l := by
            cases r with
            | nil => simp at hir
            | cons a l => exact ⟨a, l, rfl⟩
          obtain ⟨j, rfl⟩ : ∃ j, i = j + 1 := ⟨i - 1, by omega⟩
          rw [List.drop_succ_cons, List.tails_cons]
          simpa using drop_mem_tails l j
        rw [wf_noInner hwf _ hmem] at hpv
        exact absurd hpv (by simp)
  · have hne : r.drop i ≠ [] := by
      intro h0
      have hl0 := congrArg List.length h0
      simp at hl0
      omega
    exact litHandHdr_no_cross _ t hne (by omega) ht

theorem pySplitAux_append_aux (u : List Char) :
    ∀ (t cur : List Char),
      (∀ i, i < u.length → isHeaderAt (u.drop i ++ t) = false) →
      pySplitAux (u ++ t) cur = pySplitAux t (u.reverse ++ cur) := by
  induction u with
  | nil => intro t cur _; simp
  | cons c u ih =>
      intro t cur h
      have h0 : isHeaderAt (c :: (u ++ t)) = false := by
        have h1 := h 0 (by simp)
        simpa using h1
      rw [List.cons_append]
      rw [show pySplitAux (c :: (u ++ t)) cur = pySplitAux (u ++ t) (c :: cur) by
        simp [pySplitAux, h0]]
      rw [ih t (c :: cur) fun i hi => by
        have h2 := h (i + 1) (by simpa using Nat.succ_lt_succ hi)
        simpa using h2]
      simp

/-- Consuming one well-formed record: the split point fires exactly at its
front, the whole record becomes one chunk. -/
theorem pySplitAux_record (r t cur : List Char) (hwf : wellFormedRecord r = true)
    (ht : t = [] ∨ isPref litHandHdr t = true) :
    pySplitAux (r ++ t) cur = cur.reverse :: pySplitAux t r.reverse := by
  have hhdr := wf_isHeaderAt hwf
  obtain ⟨c, u, rfl⟩ : ∃ c u, r = c :: u := by
    cases r with
    | nil => exact absurd hhdr (by decide)
    | cons c u => exact ⟨c, u, rfl⟩
  have hhdr2 : isHeaderAt (c :: (u ++ t)) = true := by
    have h1 := isHeaderAt_append t hhdr
    simpa using h1
  rw [List.cons_append]
  rw [show pySplitAux (c :: (u ++ t)) cur = cur.reverse :: pySplitAux (u ++ t) [c] by
    simp [pySplitAux, hhdr2]]
  rw [pySplitAux_append_aux u t [c] fun i hi => by
    have h2 := wf_no_mid_header hwf t ht (i + 1) (by omega)
      (by simpa using Nat.succ_lt_succ hi)
    simpa using h2]
  simp

theorem flatten_wf_lit (rs : List (List Char))
    (h : ∀ r ∈ rs, wellFormedRecord r = true) :
    rs.flatten = [] ∨ isPref litHandHdr rs.flatten = true := by
  cases rs with
  | nil => left; rfl
  | cons r rest =>
      right
      have hp := isHeaderAt_isPref (wf_isHeaderAt (h r (List.mem_cons_self r rest)))
      obtain ⟨w, hw⟩ := isPref_iff_append.mp hp
      rw [List.flatten_cons, hw, List.append_assoc]
      exact isPref_append_self _ _

/-- The lookahead split of a back-to-back concatenation of well-formed
records: one empty leading chunk, then exactly the records. -/
theorem pySplitAux_flatten (rs : List (List Char)) :
    ∀ (cur : List Char), (∀ r ∈ rs, wellFormedRecord r = true) →
      pySplitAux rs.flatten cur = cur.reverse :: rs := by
  induction rs with
  | nil => intro cur _; simp [pySplitAux]
  | cons r rest ih =>
      intro cur h
      have hwf := h r (List.mem_cons_self r rest)
      have ht := flatten_wf_lit rest fun x hx => h x (List.mem_cons_of_mem _ hx)
      rw [List.flatten_cons, pySplitAux_record r rest.flatten cur hwf ht]
      rw [ih r.reverse fun x hx => h x (List.mem_cons_of_mem _ hx)]
      simp

theorem stripTrailing_append (a b : List Char) :
    stripTrailing (a ++ b) =
      if (stripTrailing b).isEmpty then stripTrailing a else a ++ stripTrailing b := by
  have hrev : (stripTrailing b).isEmpty = (b.reverse.dropWhile pyIsSpace).isEmpty := by
    unfold stripTrailing
    cases b.reverse.dropWhile pyIsSpace <;> simp
  unfold stripTrailing
  rw [List.reverse_append, List.dropWhile_append]
  by_cases h : (b.reverse.dropWhile pyIsSpace).isEmpty = true
  · rw [if_pos h, if_pos (by simpa [List.isEmpty_iff] using h)]
  · rw [if_neg h, if_neg (by simpa [List.isEmpty_iff] using h), List.reverse_append,
      List.reverse_reverse]

theorem stripTrailing_snoc_ne (y : List Char) (c : Char) (hc : pyIsSpace c = false) :
    stripTrailing (y ++ [c]) = y ++ [c] := by
  unfold stripTrailing
  rw [List.reverse_append]
  simp [List.dropWhile_cons, hc]

theorem stripLeading_cons_ne (c : Char) (y : List Char) (hc : pyIsSpace c = false) :
    stripLeading (c :: y) = c :: y := by
  simp [stripLeading, List.dropWhile_cons, hc]

/-- Stripping a record that begins with a full header match keeps the header
(and its identifier): leading strip removes nothing (`P` is not whitespace)
and trailing strip cannot reach past the header's colon. -/
theorem pyStrip_header {r ds : List Char} (h : headerIdAt r = some ds) :
    headerIdAt (pyStrip r) = some ds ∧ isPref litHandHdr (pyStrip r) = true := by
  obtain ⟨x, hr, hne, hdig⟩ := headerIdAt_inv h
  subst hr
  have hlit : litHandHdr = 'P' :: ("okerStars Hand #").toList := by decide
  have hsl : stripLeading (litHandHdr ++ (ds ++ ':' :: x)) =
      litHandHdr ++ (ds ++ ':' :: x) := by
    rw [hlit, List.cons_append]
    exact stripLeading_cons_ne _ _ (by decide)
  have hgroup : litHandHdr ++ (ds ++ ':' :: x) = (litHandHdr ++ ds ++ [':']) ++ x := by
    simp
  rw [pyStrip, hsl, hgroup, stripTrailing_append]
  by_cases hx : (stripTrailing x).isEmpty
  · rw [if_pos hx, stripTrailing_snoc_ne _ ':' (by decide)]
    constructor
    · have hb := headerIdAt_build [] hne hdig
      simpa using hb
    · have hb := isPref_append_self litHandHdr (ds ++ [':'])
      simpa using hb
  · rw [if_neg hx]
    constructor
    · have hb := headerIdAt_build (stripTrailing x) hne hdig
      simpa [List.append_assoc] using hb
    · have hb := isPref_append_self litHandHdr (ds ++ ':' :: stripTrailing x)
      simpa [List.append_assoc] using hb

theorem filterMap_all_some (f : List Char → Option (List Char))
    (g : List Char → List Char) (rs : List (List Char))
    (h : ∀ r ∈ rs, f r = some (g r)) : rs.filterMap f = rs.map g := by
  induction rs with
  | nil => rfl
  | cons r rest ih =>
      rw [List.filterMap_cons, h r (List.mem_cons_self r rest),
        ih fun x hx => h x (List.mem_cons_of_mem _ hx), List.map_cons]

/-- Claim C5: splitting a back-to-back concatenation of well-formed records
returns exactly one chunk per record, in order; each chunk is its record
(stripped of edge whitespace) and still carries the record's original header
with the same identifier. -/
theorem c5_segmentation_roundtrip (rs : List (List Char))
    (h : ∀ r ∈ rs, wellFormedRecord r = true) :
    split_hands rs.flatten = rs.map pyStrip ∧
      ∀ r ∈ rs, headerIdAt (pyStrip r) = headerIdAt r ∧
        isPref litHandHdr (pyStrip r) = true := by
  constructor
  · unfold split_hands
    rw [pySplitAux_flatten rs [] h]
    have hnil : (if isPref litHandHdr (pyStrip ([] : List Char)) = true
        then some (pyStrip ([] : List Char)) else none) = none := by decide
    rw [show ([] : List Char).reverse = [] from rfl, List.filterMap_cons, hnil]
    apply filterMap_all_some
    intro r hr
    obtain ⟨ds, hds⟩ := Option.isSome_iff_exists.mp (wf_isHeaderAt (h r hr))
    rw [if_pos (pyStrip_header hds).2]
  · intro r hr
    obtain ⟨ds, hds⟩ := Option.isSome_iff_exists.mp (wf_isHeaderAt (h r hr))
    obtain ⟨h1, h2⟩ := pyStrip_header hds
    exact ⟨by rw [h1, hds], h2⟩

/-- Witness for claim C5: two concrete well-formed records round-trip. -/
theorem c5_segmentation_roundtrip_witness :
    (∀ r ∈ exRecs, wellFormedRecord r = true) ∧
      split_hands exRecs.flatten = exRecs.map pyStrip :=
  ⟨by decide, (c5_segmentation_roundtrip exRecs (by decide)).1⟩

/-! ## Position ring (claims C8, C9) -/

theorem ringNames_length (seats : Seats) : (ringNames seats).length = seats.length := by
  unfold ringNames sortedSeatKeys
  rw [List.length_map, List.length_insertionSort, List.length_map]

theorem mem_sortedSeatKeys {seats : Seats} {b : Nat} :
    b ∈ sortedSeatKeys seats ↔ b ∈ seats.map Prod.fst :=
  (List.perm_insertionSort _ _).mem_iff

theorem rotatedSeatKeys_eq_rotate (seats : Seats) (b : Nat) :
    rotatedSeatKeys seats b =
      (sortedSeatKeys seats).rotate ((sortedSeatKeys seats).indexOf b) := by
  unfold rotatedSeatKeys
  exact (List.rotate_eq_drop_append_take List.indexOf_le_length).symm

theorem rotatedNames_eq_rotate (seats : Seats) (b : Nat) :
    rotatedNames seats b =
      (ringNames seats).rotate ((sortedSeatKeys seats).indexOf b) := by
  unfold rotatedNames ringNames
  rw [rotatedSeatKeys_eq_rotate, List.map_rotate]

theorem buildPosMap_eq_byNames (seats : Seats) (labels : List (List Char)) :
    ∀ (ks : List Nat) (i : Nat) (pm : List (List Char × List Char)),
      buildPosMap seats labels ks i pm =
        buildByNames labels (ks.map (occupant seats)) i pm := by
  intro ks
  induction ks with
  | nil => intro i pm; rfl
  | cons k rest ih => intro i pm; simp [buildPosMap, buildByNames, ih]

theorem determine_positions_eq_byNames (seats : Seats) (b : Nat)
    (hb : b ∈ seats.map Prod.fst) :
    determine_positions seats b =
      buildByNames (positionLabels seats.length) (rotatedNames seats b) 0 [] := by
  unfold determine_positions
  rw [if_pos (mem_sortedSeatKeys.mpr hb), buildPosMap_eq_byNames]
  rfl

theorem lookup_self_of_nodup_keys (seats : Seats)
    (hk : (seats.map Prod.fst).Nodup) :
    ∀ kv ∈ seats, seats.lookup kv.1 = some kv.2 := by
  induction seats with
  | nil => intro kv hkv; exact absurd hkv (by simp)
  | cons hd rest ih =>
      obtain ⟨k, v⟩ := hd
      rw [List.map_cons, List.nodup_cons] at hk
      intro kv hkv
      rcases List.mem_cons.mp hkv with rfl | hmem
      · simp [List.lookup]
      · have hne : kv.1 ≠ k := by
          intro he
          exact hk.1 (he ▸ List.mem_map.mpr ⟨kv, hmem, rfl⟩)
        have hb : (kv.1 == k) = false := by simp [hne]
        simp [List.lookup, hb, ih hk.2 kv hmem]

theorem map_occ_eq_names (seats : Seats) (hk : (seats.map Prod.fst).Nodup) :
    (seats.map Prod.fst).map (occupant seats) = seats.map fun kv => kv.2.name := by
  rw [List.map_map]
  apply List.map_congr_left
  intro kv hkv
  show occupant seats kv.1 = kv.2.name
  rw [occupant, lookup_self_of_nodup_keys seats hk kv hkv]

theorem rotatedNames_nodup (seats : Seats) (b : Nat)
    (hk : (seats.map Prod.fst).Nodup)
    (hnm : (seats.map fun kv => kv.2.name).Nodup) :
    (rotatedNames seats b).Nodup := by
  have p1 : List.Perm ((ringNames seats).rotate ((sortedSeatKeys seats).indexOf b))
      (ringNames seats) := List.rotate_perm _ _
  have p2 : List.Perm (ringNames seats) (seats.map fun kv => kv.2.name) := by
    rw [← map_occ_eq_names seats hk]
    exact (List.perm_insertionSort _ _).map (occupant seats)
  have hperm : List.Perm (rotatedNames seats b) (seats.map fun kv => kv.2.name) := by
    rw [rotatedNames_eq_rotate]
    exact p1.trans p2
  exact hperm.nodup_iff.mpr hnm

theorem dictSet_append_fresh {α β : Type} [BEq α] [LawfulBEq α]
    (m : List (α × β)) (k : α) (v : β) (h : k ∉ m.map Prod.fst) :
    dictSet m k v = m ++ [(k, v)] := by
  induction m with
  | nil => rfl
  | cons hd t ih =>
      obtain ⟨k₁, v₁⟩ := hd
      rw [List.map_cons, List.mem_cons] at h
      push_neg at h
      have hb : (k₁ == k) = false := by simp [Ne.symm h.1]
      simp [dictSet, hb, ih h.2]

theorem buildByNames_eq_map (labels : List (List Char)) :
    ∀ (names : List (List Char)) (i : Nat) (pm : List (List Char × List Char)),
      names.Nodup → (∀ nm ∈ names, nm ∉ pm.map Prod.fst) →
      buildByNames labels names i pm =
        pm ++ (List.enumFrom i names).map fun p => (p.2, posLabelAt labels p.1) := by
  intro names
  induction names with
  | nil => intro i pm _ _; simp [buildByNames]
  | cons nm rest ih =>
      intro i pm hnd hfresh
      rw [List.nodup_cons] at hnd
      show buildByNames labels rest (i + 1) (dictSet pm nm (posLabelAt labels i)) = _
      rw [dictSet_append_fresh pm nm _ (hfresh nm (List.mem_cons_self nm rest))]
      rw [ih (i + 1) _ hnd.2 ?fresh]
      case fresh =>
        intro x hx
        rw [List.map_append, List.mem_append]
        push_neg
        constructor
        · exact hfresh x (List.mem_cons_of_mem _ hx)
        · have hxne : x ≠ nm := by
            intro he
            exact hnd.1 (he ▸ hx)
          simp [hxne]
      simp

theorem posLabelAt_zero (n : Nat) : posLabelAt (positionLabels n) 0 = ("BTN").toList := by
  unfold posLabelAt positionLabels
  split_ifs <;> rfl

theorem posLabelAt_ep (n i : Nat) (h7 : 7 ≤ n) (h3 : 3 ≤ i) (hi : i < n) :
    posLabelAt (positionLabels n) i = ("EP").toList ++ (toString (i - 3)).toList := by
  have hpl : positionLabels n = [("BTN").toList, ("SB").toList, ("BB").toList] ++
      (List.range (n - 3)).map fun j => ("EP").toList ++ (toString j).toList := by
    unfold positionLabels
    rw [if_neg (by omega), if_neg (by omega), if_neg (by omega), if_neg (by omega),
      if_neg (by omega)]
  rw [hpl]
  unfold posLabelAt
  rw [List.getD_eq_getElem?_getD,
    List.getElem?_append_right (by simpa using h3),
    List.getElem?_map]
  have hr : i - [("BTN").toList, ("SB").toList, ("BB").toList].length = i - 3 := by simp
  rw [hr, List.getElem?_range (by omega : i - 3 < n - 3)]
  rfl

/-- Claim C8: for a table of size 2..6 with a valid button seat, relabeling
all seats by a constant ring offset `d` — same occupant ring rotated by `d`,
button index shifted consistently — yields the identical player-to-label
mapping, and the occupant of the button seat is labeled `BTN`.  The
name-uniqueness hypothesis is the spec's data-model invariant (playerName is
a unique key within a hand). -/
theorem c8_position_ring_invariant (seats1 seats2 : Seats) (b1 b2 d : Nat)
    (hk1 : (seats1.map Prod.fst).Nodup) (hk2 : (seats2.map Prod.fst).Nodup)
    (hnm1 : (seats1.map fun kv => kv.2.name).Nodup)
    (hsz : 2 ≤ seats1.length ∧ seats1.length ≤ 6)
    (hb1 : b1 ∈ seats1.map Prod.fst) (hb2 : b2 ∈ seats2.map Prod.fst)
    (hring : ringNames seats2 = (ringNames seats1).rotate d)
    (hbi : (d + (sortedSeatKeys seats2).indexOf b2) % seats1.length =
      (sortedSeatKeys seats1).indexOf b1 % seats1.length) :
    determine_positions seats2 b2 = determine_positions seats1 b1 ∧
      (determine_positions seats1 b1).lookup (occupant seats1 b1) =
        some (("BTN").toList) := by
  have hlen2 : seats2.length = seats1.length := by
    have h1 := congrArg List.length hring
    rw [List.length_rotate, ringNames_length, ringNames_length] at h1
    exact h1
  have hrn : rotatedNames seats2 b2 = rotatedNames seats1 b1 := by
    rw [rotatedNames_eq_rotate, rotatedNames_eq_rotate, hring, List.rotate_rotate]
    calc (ringNames seats1).rotate (d + (sortedSeatKeys seats2).indexOf b2)
        = (ringNames seats1).rotate
            ((d + (sortedSeatKeys seats2).indexOf b2) % (ringNames seats1).length) :=
          (List.rotate_mod _ _).symm
      _ = (ringNames seats1).rotate
            ((d + (sortedSeatKeys seats2).indexOf b2) % seats1.length) := by
          rw [ringNames_length]
      _ = (ringNames seats1).rotate
            ((sortedSeatKeys seats1).indexOf b1 % seats1.length) := by rw [hbi]
      _ = (ringNames seats1).rotate
            ((sortedSeatKeys seats1).indexOf b1 % (ringNames seats1).length) := by
          rw [ringNames_length]
      _ = (ringNames seats1).rotate ((sortedSeatKeys seats1).indexOf b1) :=
          List.rotate_mod _ _
  constructor
  · rw [determine_positions_eq_byNames seats1 b1 hb1,
      determine_positions_eq_byNames seats2 b2 hb2, hlen2, hrn]
  · have hnodup := rotatedNames_nodup seats1 b1 hk1 hnm1
    have hbs : b1 ∈ sortedSeatKeys seats1 := mem_sortedSeatKeys.mpr hb1
    have hidx : (sortedSeatKeys seats1).indexOf b1 < (sortedSeatKeys seats1).length :=
      List.indexOf_lt_length.mpr hbs
    have hkeys : ∃ tk, rotatedSeatKeys seats1 b1 = b1 :: tk := by
      refine ⟨(sortedSeatKeys seats1).drop ((sortedSeatKeys seats1).indexOf b1 + 1) ++
        (sortedSeatKeys seats1).take ((sortedSeatKeys seats1).indexOf b1), ?_⟩
      show (sortedSeatKeys seats1).drop ((sortedSeatKeys seats1).indexOf b1) ++
        (sortedSeatKeys seats1).take ((sortedSeatKeys seats1).indexOf b1) = _
      rw [List.drop_eq_getElem_cons hidx, List.getElem_indexOf hidx, List.cons_append]
    obtain ⟨tk, htk⟩ := hkeys
    have htl : rotatedNames seats1 b1 =
        occupant seats1 b1 :: tk.map (occupant seats1) := by
      show (rotatedSeatKeys seats1 b1).map (occupant seats1) = _
      rw [htk, List.map_cons]
    rw [determine_positions_eq_byNames seats1 b1 hb1,
      buildByNames_eq_map (positionLabels seats1.length) (rotatedNames seats1 b1) 0 []
        hnodup (by simp), htl]
    simp [List.lookup, List.enumFrom_cons, posLabelAt_zero]

/-- Witness for claim C8: `exSeats2` is `exSeats1`'s ring relabeled from
seats 1,2,3 to 4,5,6 with offset 1; the mappings coincide and Ben, on the
button in both, gets `BTN`. -/
theorem c8_position_ring_invariant_witness :
    determine_positions exSeats2 4 = determine_positions exSeats1 2 ∧
      (determine_positions exSeats1 2).lookup (occupant exSeats1 2) =
        some (("BTN").toList) :=
  c8_position_ring_invariant exSeats1 exSeats2 2 4 1 (by decide) (by decide)
    (by decide) (by decide) (by decide) (by decide) (by decide) (by decide)

/-- Claim C9: on a table of more than 6 players with a valid button, the
seat at rotated index `i ≥ 3` (zero-based ring distance from the button) is
assigned the synthesized label `EP<i-3>`: the fallback label list is
`[BTN, SB, BB]` followed by `EP0, EP1, ...`, so the subtracted
curated-label count is 3. -/
theorem c9_ep_labels (seats : Seats) (b : Nat) (i : Nat)
    (hk : (seats.map Prod.fst).Nodup)
    (hnm : (seats.map fun kv => kv.2.name).Nodup)
    (h7 : 7 ≤ seats.length) (hb : b ∈ seats.map Prod.fst)
    (h3 : 3 ≤ i) (hi : i < seats.length) :
    ∃ nm, (rotatedNames seats b)[i]? = some nm ∧
      (determine_positions seats b)[i]? =
        some (nm, ("EP").toList ++ (toString (i - 3)).toList) := by
  have hnodup := rotatedNames_nodup seats b hk hnm
  have hlen : (rotatedNames seats b).length = seats.length := by
    rw [rotatedNames_eq_rotate, List.length_rotate, ringNames_length]
  have hlt : i < (rotatedNames seats b).length := by omega
  refine ⟨(rotatedNames seats b)[i], List.getElem?_eq_getElem hlt, ?_⟩
  rw [determine_positions_eq_byNames seats b hb,
    buildByNames_eq_map (positionLabels seats.length) (rotatedNames seats b) 0 []
      hnodup (by simp),
    List.nil_append, List.getElem?_map, List.getElem?_enumFrom,
    List.getElem?_eq_getElem hlt]
  simp [posLabelAt_ep seats.length i h7 h3 hi]

/-- Witness for claim C9: in the 7-seat table `exSeats7` with the button on
seat 3, the seat at rotated index 4 (seat 7, player P7) gets label `EP1`. -/
theorem c9_ep_labels_witness :
    ∃ nm, (rotatedNames exSeats7 3)[4]? = some nm ∧
      (determine_positions exSeats7 3)[4]? =
        some (nm, ("EP").toList ++ (toString (4 - 3)).toList) :=
  c9_ep_labels exSeats7 3 4 (by decide) (by decide) (by decide) (by decide)
    (by decide) (by decide)

end PokerLens
